import Mathlib

/-!
Shallow embedding of the artifact-inspection and flag-parsing subsystem of
`openblas-build` (file `src/check.rs`): `LinkFlags::parse`, `MakeConf::new`,
and `LibInspect` with its capability queries.

The ambient operating system (filesystem queries, `nm -g` and `objdump -p`
invocations, file reading) is modelled as an explicit `Env` record of
functions; each operation of the code is a pure Lean function over it.
Rust `String`s are Lean `String`s; the string helpers of the Rust standard
library that the code uses (`split`, `trim`, `starts_with`,
`trim_start_matches`) are re-implemented structurally below, faithful to
their documented behaviour on the single-character / literal patterns the
code passes them.
-/

namespace OpenblasBuild

/-- Error type of the crate, as used by `check.rs`: variants
`CannotCanonicalizePath { path }`, `MakeConfNotExist { out_dir }`,
`LibraryNotExist { path }`, and the conversion of an `io::Error` from a
failed external command (the spec calls it `ExternalToolFailure`). -/
inductive Error where
  | CannotCanonicalizePath (path : String)
  | MakeConfNotExist (out_dir : String)
  | LibraryNotExist (path : String)
  | ExternalToolFailure
deriving DecidableEq, Repr

/-- The ambient OS, as consulted by `check.rs`: `Path::exists`,
`Path::canonicalize` (`none` = an `io::Error`), reading a file as a list of
lines (`none` = the file cannot be opened), and the captured stdout lines of
the two external commands (`none` = the command could not be run). -/
structure Env where
  pathExists : String → Bool
  canonicalize : String → Option String
  readLines : String → Option (List String)
  nm_g : String → Option (List String)
  objdump_p : String → Option (List String)

/-- Rust `str::split` with a single-character separator: splits at every
occurrence, keeping empty segments; the empty string yields `[[]]`. -/
def splitOnChar (c : Char) : List Char → List (List Char)
  | [] => [[]]
  | a :: rest =>
    match splitOnChar c rest with
    | [] => [[a]]
    | x :: xs => if a = c then [] :: x :: xs else (a :: x) :: xs

/-- `String` version of `splitOnChar`. -/
def splitOnCharS (c : Char) (s : String) : List String :=
  (splitOnChar c s.data).map String.mk

/-- Rust `str::starts_with` for a string pattern. -/
def startsWithS (pat s : String) : Bool :=
  pat.data.isPrefixOf s.data

/-- One round of removal in `trim_start_matches`, with explicit fuel so the
definition is structurally recursive; `fuel = s.length` is always enough
since every round removes at least one character of a nonempty pattern. -/
def dropPatAux (pat : List Char) : Nat → List Char → List Char
  | 0, s => s
  | fuel + 1, s =>
    if pat ≠ [] ∧ pat.isPrefixOf s then dropPatAux pat fuel (s.drop pat.length)
    else s

/-- Rust `str::trim_start_matches`: repeatedly removes the pattern from the
front of the string while it is a prefix. -/
def trimStartMatchesS (pat s : String) : String :=
  String.mk (dropPatAux pat.data s.data.length s.data)

/-- Rust `str::trim`: whitespace stripped from both ends. -/
def trimS (s : String) : String :=
  String.mk (((s.data.dropWhile Char.isWhitespace).reverse.dropWhile
    Char.isWhitespace).reverse)

/-- Rust's `Ord` on `String`/`PathBuf`: lexicographic comparison. This is a
structurally recursive decision procedure; it is proved below to agree with
the lexicographic linear order on `String`. -/
def listLe : List Char → List Char → Bool
  | [], _ => true
  | _ :: _, [] => false
  | a :: as, b :: bs => if a = b then listLe as bs else decide (a < b)

/-- `listLe` lifted to `String`. -/
def strLe (s t : String) : Bool :=
  listLe s.data t.data

/-- `as_sorted_vec` of `check.rs`: a `HashSet` turned into a sorted `Vec`.
The set of inserted elements is the deduplicated list; the result is its
sorted enumeration. -/
def as_sorted_vec (l : List String) : List String :=
  List.insertionSort (fun a b => strLe a b = true) l.dedup

/-- `LinkFlags`: existing search paths from `-L` and library names from
`-l`, both sorted and deduplicated. -/
structure LinkFlags where
  search_paths : List String
  libs : List String
deriving DecidableEq, Repr

/-- The second `if` of the loop body of `LinkFlags::parse`: a token starting
with `-l` has the prefix stripped (repeatedly, per `trim_start_matches`) and
the remainder inserted into the `libs` set. -/
def addLib (entry : String) (st : List String × List String) :
    List String × List String :=
  if startsWithS "-l" entry then (st.1, trimStartMatchesS "-l" entry :: st.2)
  else st

/-- The loop body of `LinkFlags::parse` for one token: the `-L` branch may
`continue` (skipping the rest of the body) when the path does not exist, or
fail when canonicalization fails; otherwise the `-l` branch also runs. -/
def parseStep (env : Env) (st : List String × List String) (entry : String) :
    Except Error (List String × List String) :=
  if startsWithS "-L" entry then
    let path := trimStartMatchesS "-L" entry
    if env.pathExists path then
      match env.canonicalize path with
      | some c => Except.ok (addLib entry (c :: st.1, st.2))
      | none => Except.error (Error.CannotCanonicalizePath path)
    else
      Except.ok st
  else
    Except.ok (addLib entry st)

/-- `LinkFlags::parse`: split the flag string on single spaces, fold the
loop body over the tokens, then return both accumulated sets as sorted
deduplicated vectors. -/
def LinkFlags.parse (env : Env) (line : String) : Except Error LinkFlags :=
  match (splitOnCharS ' ' line).foldlM (parseStep env) ([], []) with
  | Except.error e => Except.error e
  | Except.ok st => Except.ok ⟨as_sorted_vec st.1, as_sorted_vec st.2⟩

/-- Statement predicate: the parse of the token list `toks` puts `x` into the
search-path set — some `-L` token names an existing path canonicalizing to
`x`. -/
def spMem (env : Env) (toks : List String) (x : String) : Prop :=
  ∃ t ∈ toks, startsWithS "-L" t = true ∧
    env.pathExists (trimStartMatchesS "-L" t) = true ∧
    env.canonicalize (trimStartMatchesS "-L" t) = some x

/-- Statement predicate: the parse of the token list `toks` puts `x` into the
library set — some `-l` token strips to `x`. -/
def libMem (toks : List String) (x : String) : Prop :=
  ∃ t ∈ toks, startsWithS "-l" t = true ∧ trimStartMatchesS "-l" t = x

/-- Statement predicate: token `t` makes `LinkFlags::parse` fail — it is a
`-L` token naming an existing path whose canonicalization fails. -/
def badTok (env : Env) (t : String) : Prop :=
  startsWithS "-L" t = true ∧
    env.pathExists (trimStartMatchesS "-L" t) = true ∧
    env.canonicalize (trimStartMatchesS "-L" t) = none

/-- `MakeConf`: the semantically relevant contents of `Makefile.conf`. -/
structure MakeConf where
  os_name : String
  no_fortran : Bool
  c_extra_libs : LinkFlags
  f_extra_libs : LinkFlags
deriving DecidableEq, Repr

/-- `MakeConf::default()`. -/
def MakeConf.init : MakeConf :=
  ⟨"", false, ⟨[], []⟩, ⟨[], []⟩⟩

/-- The loop body of `MakeConf::new` for one line: skip empty lines, split
on `=`, skip lines not splitting into exactly two parts, then dispatch on
the key. -/
def confStep (env : Env) (detail : MakeConf) (line : String) :
    Except Error MakeConf :=
  if line.length = 0 then Except.ok detail
  else
    match splitOnCharS '=' line with
    | [k, v] =>
      if k = "OSNAME" then Except.ok { detail with os_name := v }
      else if k = "NOFORTRAN" then Except.ok { detail with no_fortran := true }
      else if k = "CEXTRALIB" then
        (LinkFlags.parse env v).map fun f => { detail with c_extra_libs := f }
      else if k = "FEXTRALIB" then
        (LinkFlags.parse env v).map fun f => { detail with f_extra_libs := f }
      else Except.ok detail
    | _ => Except.ok detail

/-- `MakeConf::new`: open the file (failing with `MakeConfNotExist` if it
cannot be opened) and fold the line handler over its lines, starting from
the default configuration. -/
def MakeConf.new (env : Env) (path : String) : Except Error MakeConf :=
  match env.readLines path with
  | none => Except.error (Error.MakeConfNotExist path)
  | some lines => lines.foldlM (confStep env) MakeConf.init

/-- One line of `nm -g` output: trim, split on single spaces; keep the name
iff there are exactly three fields and the second is `"T"`. -/
def nmParseLine (line : String) : Option String :=
  match splitOnCharS ' ' (trimS line) with
  | [_, t, name] => if t = "T" then some name else none
  | _ => none

/-- One line of `objdump -p` output: kept iff the trimmed line starts with
`NEEDED`; the marker is stripped (`trim_start_matches`) and the rest
trimmed. -/
def objdumpParseLine (line : String) : Option String :=
  if startsWithS "NEEDED" (trimS line) then
    some (trimS (trimStartMatchesS "NEEDED" (trimS line)))
  else none

/-- `LibInspect`: path identity plus the parsed `nm`/`objdump` output. -/
structure LibInspect where
  path : String
  libs : List String
  symbols : List String
deriving DecidableEq, Repr

/-- `LibInspect::new`: fail fast with `LibraryNotExist` when the path does
not exist; otherwise run `nm -g` and `objdump -p`, parse their lines, and
sort (without deduplicating) both resulting lists. -/
def LibInspect.new (env : Env) (path : String) : Except Error LibInspect :=
  if env.pathExists path = false then
    Except.error (Error.LibraryNotExist path)
  else
    match env.nm_g path with
    | none => Except.error Error.ExternalToolFailure
    | some nmLines =>
      let symbols :=
        List.insertionSort (fun a b => strLe a b = true) (nmLines.filterMap nmParseLine)
      match env.objdump_p path with
      | none => Except.error Error.ExternalToolFailure
      | some odLines =>
        let libs :=
          List.insertionSort (fun a b => strLe a b = true) (odLines.filterMap objdumpParseLine)
        Except.ok ⟨path, libs, symbols⟩

/-- `LibInspect::has_cblas`. -/
def LibInspect.has_cblas (self : LibInspect) : Bool :=
  self.symbols.any fun sym => startsWithS "cblas_" sym

/-- `LibInspect::has_lapack`. -/
def LibInspect.has_lapack (self : LibInspect) : Bool :=
  self.symbols.any fun sym => sym = "dsyev_"

/-- `LibInspect::has_lapacke`. -/
def LibInspect.has_lapacke (self : LibInspect) : Bool :=
  self.symbols.any fun sym => startsWithS "LAPACKE_" sym

/-- `LibInspect::has_lib`: true iff some dependency's portion before the
first `.` equals `"lib" ++ name`. -/
def LibInspect.has_lib (self : LibInspect) (name : String) : Bool :=
  self.libs.any fun lib =>
    match (splitOnCharS '.' lib).head? with
    | some stem => stem = "lib" ++ name
    | none => false

/-- Statement predicate: a configuration line that sets `no_fortran` — its
key is `NOFORTRAN` and it splits on `=` into exactly two parts. -/
def noFortranLine (line : String) : Prop :=
  ∃ v, splitOnCharS '=' line = ["NOFORTRAN", v]

/-- A concrete environment: nothing exists, nothing can be read or run. -/
def envEmpty : Env :=
  ⟨fun _ => false, fun _ => none, fun _ => none, fun _ => none, fun _ => none⟩

/-- A concrete environment in which every path exists but canonicalization
always fails. -/
def envCanonFail : Env :=
  ⟨fun _ => true, fun _ => none, fun _ => none, fun _ => none, fun _ => none⟩

/-- A concrete environment whose `nm -g` output repeats the same `T` symbol
on two lines. -/
def envDupNm : Env :=
  ⟨fun _ => true, fun _ => none, fun _ => none,
   fun _ => some ["0 T a", "1 T a"], fun _ => some []⟩

/-- A concrete environment whose configuration file is `NOFORTRAN=1`. -/
def envConf5 : Env :=
  ⟨fun _ => false, fun _ => none, fun _ => some ["NOFORTRAN=1"],
   fun _ => none, fun _ => none⟩

/-- A concrete environment whose configuration file mixes unrecognized keys,
a malformed line, an empty line and recognized keys. -/
def envConf8 : Env :=
  ⟨fun _ => false, fun _ => none,
   fun _ => some ["FOO=bar", "FOO=bar=baz", "", "OSNAME=Linux", "NOFORTRAN=1"],
   fun _ => none, fun _ => none⟩

/-! ### The computable comparison agrees with the lexicographic order -/

theorem listLe_iff_not_lex :
    ∀ l₁ l₂ : List Char, listLe l₁ l₂ = true ↔ ¬ List.Lex (· < ·) l₂ l₁
  | [], l₂ => iff_of_true rfl (List.Lex.not_nil_right _ _)
  | a :: as, [] =>
    iff_of_false (by simp [listLe]) (not_not_intro List.Lex.nil)
  | a :: as, b :: bs => by
    simp only [listLe]
    by_cases hab : a = b
    · subst hab
      rw [if_pos rfl, listLe_iff_not_lex as bs]
      constructor
      · intro h hl
        cases hl with
        | cons h' => exact h h'
        | rel h' => exact absurd h' (lt_irrefl a)
      · intro h hl
        exact h (List.Lex.cons hl)
    · rw [if_neg hab]
      constructor
      · intro h hl
        cases hl with
        | cons => exact hab rfl
        | rel h' => exact absurd h' (not_lt_of_lt (of_decide_eq_true h))
      · intro h
        have hba : ¬ b < a := fun hba => h (List.Lex.rel hba)
        exact decide_eq_true (lt_of_le_of_ne (le_of_not_lt hba) hab)

theorem strLe_iff (s t : String) : strLe s t = true ↔ s ≤ t := by
  rw [← not_lt, String.lt_iff_toList_lt]
  exact listLe_iff_not_lex s.data t.data

instance : IsTotal String fun a b => strLe a b = true :=
  ⟨fun a b => by
    rcases le_total a b with h | h
    · exact Or.inl ((strLe_iff a b).mpr h)
    · exact Or.inr ((strLe_iff b a).mpr h)⟩

instance : IsTrans String fun a b => strLe a b = true :=
  ⟨fun a b c hab hbc =>
    (strLe_iff a c).mpr (le_trans ((strLe_iff a b).mp hab) ((strLe_iff b c).mp hbc))⟩

instance : IsAntisymm String fun a b => strLe a b = true :=
  ⟨fun a b hab hba => le_antisymm ((strLe_iff a b).mp hab) ((strLe_iff b a).mp hba)⟩

/-! ### Properties of `as_sorted_vec` -/

theorem sorted_as_sorted_vec (l : List String) :
    List.Sorted (· ≤ ·) (as_sorted_vec l) :=
  (List.sorted_insertionSort _ _).imp fun h => (strLe_iff _ _).mp h

theorem nodup_as_sorted_vec (l : List String) : (as_sorted_vec l).Nodup :=
  (List.perm_insertionSort _ _).nodup_iff.mpr (List.nodup_dedup l)

theorem mem_as_sorted_vec {x : String} {l : List String} :
    x ∈ as_sorted_vec l ↔ x ∈ l :=
  (List.mem_insertionSort _).trans List.mem_dedup

theorem as_sorted_vec_eq_of_mem_iff {l₁ l₂ : List String}
    (h : ∀ x, x ∈ l₁ ↔ x ∈ l₂) : as_sorted_vec l₁ = as_sorted_vec l₂ :=
  List.eq_of_perm_of_sorted
    ((List.perm_ext_iff_of_nodup (nodup_as_sorted_vec l₁) (nodup_as_sorted_vec l₂)).mpr
      fun x => mem_as_sorted_vec.trans ((h x).trans mem_as_sorted_vec.symm))
    (List.sorted_insertionSort _ _) (List.sorted_insertionSort _ _)

/-! ### Case analysis of the `LinkFlags::parse` loop body -/

theorem isPrefixOf_pair_excl {a b c : Char} (hbc : b ≠ c) :
    ∀ l : List Char, List.isPrefixOf [a, b] l = true →
      List.isPrefixOf [a, c] l = false
  | [], h => by simp [List.isPrefixOf] at h
  | [c1], h => by simp [List.isPrefixOf] at h
  | c1 :: c2 :: rest, h => by
    simp only [List.isPrefixOf, Bool.and_eq_true, beq_iff_eq] at h ⊢
    obtain ⟨rfl, rfl, -⟩ := h
    simp [Ne.symm hbc]

theorem startsWith_L_not_l {t : String} (h : startsWithS "-L" t = true) :
    startsWithS "-l" t = false :=
  isPrefixOf_pair_excl (by decide) t.data h

theorem addLib_of_not {entry : String} {st : List String × List String}
    (h : startsWithS "-l" entry = false) : addLib entry st = st := by
  simp [addLib, h]

theorem addLib_of {entry : String} {st : List String × List String}
    (h : startsWithS "-l" entry = true) :
    addLib entry st = (st.1, trimStartMatchesS "-l" entry :: st.2) := by
  simp [addLib, h]

theorem parseStep_L_skip (env : Env) (st : List String × List String)
    (entry : String) (hL : startsWithS "-L" entry = true)
    (hE : env.pathExists (trimStartMatchesS "-L" entry) = false) :
    parseStep env st entry = Except.ok st := by
  simp [parseStep, hL, hE]

theorem parseStep_L_ok (env : Env) (st : List String × List String)
    (entry : String) (c : String) (hL : startsWithS "-L" entry = true)
    (hE : env.pathExists (trimStartMatchesS "-L" entry) = true)
    (hC : env.canonicalize (trimStartMatchesS "-L" entry) = some c) :
    parseStep env st entry = Except.ok (c :: st.1, st.2) := by
  simp [parseStep, hL, hE, hC, addLib_of_not (startsWith_L_not_l hL)]

theorem parseStep_L_err (env : Env) (st : List String × List String)
    (entry : String) (hL : startsWithS "-L" entry = true)
    (hE : env.pathExists (trimStartMatchesS "-L" entry) = true)
    (hC : env.canonicalize (trimStartMatchesS "-L" entry) = none) :
    parseStep env st entry =
      Except.error (Error.CannotCanonicalizePath (trimStartMatchesS "-L" entry)) := by
  simp [parseStep, hL, hE, hC]

theorem parseStep_not_L (env : Env) (st : List String × List String)
    (entry : String) (hL : startsWithS "-L" entry = false) :
    parseStep env st entry = Except.ok (addLib entry st) := by
  simp [parseStep, hL]

/-! ### Characterization of the fold over the tokens -/

theorem spMem_cons {env : Env} {t : String} {toks : List String} {x : String} :
    spMem env (t :: toks) x ↔
      (startsWithS "-L" t = true ∧
        env.pathExists (trimStartMatchesS "-L" t) = true ∧
        env.canonicalize (trimStartMatchesS "-L" t) = some x) ∨ spMem env toks x := by
  simp [spMem, List.exists_mem_cons_iff]

theorem libMem_cons {t : String} {toks : List String} {x : String} :
    libMem (t :: toks) x ↔
      (startsWithS "-l" t = true ∧ trimStartMatchesS "-l" t = x) ∨ libMem toks x := by
  simp [libMem, List.exists_mem_cons_iff]

theorem foldlM_parseStep_ok (env : Env) :
    ∀ (toks : List String) (st st' : List String × List String),
      toks.foldlM (parseStep env) st = Except.ok st' →
      (∀ x, x ∈ st'.1 ↔ x ∈ st.1 ∨ spMem env toks x) ∧
      (∀ x, x ∈ st'.2 ↔ x ∈ st.2 ∨ libMem toks x) := by
  intro toks
  induction toks with
  | nil =>
    intro st st' h
    have h' : (Except.ok st : Except Error (List String × List String)) =
        Except.ok st' := h
    injection h' with h'
    subst h'
    simp [spMem, libMem]
  | cons t toks ih =>
    intro st st' h
    rw [List.foldlM_cons] at h
    by_cases hL : startsWithS "-L" t = true
    · rcases hE : env.pathExists (trimStartMatchesS "-L" t) with _ | _
      · rw [parseStep_L_skip env st t hL hE] at h
        simp only [bind, Except.bind] at h
        obtain ⟨h1, h2⟩ := ih st st' h
        refine ⟨fun x => ?_, fun x => ?_⟩
        · rw [h1 x, spMem_cons]
          constructor
          · rintro (hx | hx)
            · exact Or.inl hx
            · exact Or.inr (Or.inr hx)
          · rintro (hx | ⟨-, hx, -⟩ | hx)
            · exact Or.inl hx
            · rw [hE] at hx; cases hx
            · exact Or.inr hx
        · rw [h2 x, libMem_cons]
          have hl := startsWith_L_not_l hL
          constructor
          · rintro (hx | hx)
            · exact Or.inl hx
            · exact Or.inr (Or.inr hx)
          · rintro (hx | ⟨hx, -⟩ | hx)
            · exact Or.inl hx
            · rw [hl] at hx; cases hx
            · exact Or.inr hx
      · rcases hC : env.canonicalize (trimStartMatchesS "-L" t) with _ | c
        · rw [parseStep_L_err env st t hL hE hC] at h
          simp only [bind, Except.bind] at h
          cases h
        · rw [parseStep_L_ok env st t c hL hE hC] at h
          simp only [bind, Except.bind] at h
          obtain ⟨h1, h2⟩ := ih _ _ h
          refine ⟨fun x => ?_, fun x => ?_⟩
          · rw [h1 x, spMem_cons]
            simp only [List.mem_cons]
            constructor
            · rintro ((rfl | hx) | hx)
              · exact Or.inr (Or.inl ⟨hL, hE, hC⟩)
              · exact Or.inl hx
              · exact Or.inr (Or.inr hx)
            · rintro (hx | ⟨-, -, hx⟩ | hx)
              · exact Or.inl (Or.inr hx)
              · rw [hC] at hx
                exact Or.inl (Or.inl (Option.some_inj.mp hx).symm)
              · exact Or.inr hx
          · rw [h2 x, libMem_cons]
            have hl := startsWith_L_not_l hL
            constructor
            · rintro (hx | hx)
              · exact Or.inl hx
              · exact Or.inr (Or.inr hx)
            · rintro (hx | ⟨hx, -⟩ | hx)
              · exact Or.inl hx
              · rw [hl] at hx; cases hx
              · exact Or.inr hx
    · rw [Bool.not_eq_true] at hL
      rw [parseStep_not_L env st t hL] at h
      simp only [bind, Except.bind] at h
      obtain ⟨h1, h2⟩ := ih _ _ h
      refine ⟨fun x => ?_, fun x => ?_⟩
      · rw [h1 x, spMem_cons]
        have hsp : (addLib t st).1 = st.1 := by
          by_cases hl : startsWithS "-l" t = true
          · rw [addLib_of hl]
          · rw [Bool.not_eq_true] at hl; rw [addLib_of_not hl]
        rw [hsp]
        constructor
        · rintro (hx | hx)
          · exact Or.inl hx
          · exact Or.inr (Or.inr hx)
        · rintro (hx | ⟨hx, -⟩ | hx)
          · exact Or.inl hx
          · rw [hL] at hx; cases hx
          · exact Or.inr hx
      · rw [h2 x, libMem_cons]
        by_cases hl : startsWithS "-l" t = true
        · have hlb : (addLib t st).2 = trimStartMatchesS "-l" t :: st.2 := by
            rw [addLib_of hl]
          rw [hlb]
          simp only [List.mem_cons]
          constructor
          · rintro ((rfl | hx) | hx)
            · exact Or.inr (Or.inl ⟨hl, rfl⟩)
            · exact Or.inl hx
            · exact Or.inr (Or.inr hx)
          · rintro (hx | ⟨-, rfl⟩ | hx)
            · exact Or.inl (Or.inr hx)
            · exact Or.inl (Or.inl rfl)
            · exact Or.inr hx
        · rw [Bool.not_eq_true] at hl
          rw [addLib_of_not hl]
          constructor
          · rintro (hx | hx)
            · exact Or.inl hx
            · exact Or.inr (Or.inr hx)
          · rintro (hx | ⟨hx, -⟩ | hx)
            · exact Or.inl hx
            · rw [hl] at hx; cases hx
            · exact Or.inr hx

theorem foldlM_parseStep_error (env : Env) :
    ∀ (toks : List String) (st : List String × List String) (e : Error),
      toks.foldlM (parseStep env) st = Except.error e →
      ∃ t ∈ toks, badTok env t ∧
        e = Error.CannotCanonicalizePath (trimStartMatchesS "-L" t) := by
  intro toks
  induction toks with
  | nil =>
    intro st e h
    have h' : (Except.ok st : Except Error (List String × List String)) =
        Except.error e := h
    exact Except.noConfusion h'
  | cons t toks ih =>
    intro st e h
    rw [List.foldlM_cons] at h
    by_cases hL : startsWithS "-L" t = true
    · rcases hE : env.pathExists (trimStartMatchesS "-L" t) with _ | _
      · rw [parseStep_L_skip env st t hL hE] at h
        simp only [bind, Except.bind] at h
        obtain ⟨t', ht', hb, he⟩ := ih st e h
        exact ⟨t', List.mem_cons_of_mem _ ht', hb, he⟩
      · rcases hC : env.canonicalize (trimStartMatchesS "-L" t) with _ | c
        · rw [parseStep_L_err env st t hL hE hC] at h
          simp only [bind, Except.bind] at h
          injection h with h
          exact ⟨t, List.mem_cons_self _ _, ⟨hL, hE, hC⟩, h.symm⟩
        · rw [parseStep_L_ok env st t c hL hE hC] at h
          simp only [bind, Except.bind] at h
          obtain ⟨t', ht', hb, he⟩ := ih _ e h
          exact ⟨t', List.mem_cons_of_mem _ ht', hb, he⟩
    · rw [Bool.not_eq_true] at hL
      rw [parseStep_not_L env st t hL] at h
      simp only [bind, Except.bind] at h
      obtain ⟨t', ht', hb, he⟩ := ih _ e h
      exact ⟨t', List.mem_cons_of_mem _ ht', hb, he⟩

theorem foldlM_parseStep_ok_no_bad (env : Env) :
    ∀ (toks : List String) (st st' : List String × List String),
      toks.foldlM (parseStep env) st = Except.ok st' →
      ∀ t ∈ toks, ¬ badTok env t := by
  intro toks
  induction toks with
  | nil => intro st st' _ t ht; cases ht
  | cons t toks ih =>
    intro st st' h u hu
    rw [List.foldlM_cons] at h
    by_cases hL : startsWithS "-L" t = true
    · rcases hE : env.pathExists (trimStartMatchesS "-L" t) with _ | _
      · rw [parseStep_L_skip env st t hL hE] at h
        simp only [bind, Except.bind] at h
        rcases List.mem_cons.mp hu with rfl | hu
        · rintro ⟨-, hb, -⟩
          rw [hE] at hb; cases hb
        · exact ih st st' h u hu
      · rcases hC : env.canonicalize (trimStartMatchesS "-L" t) with _ | c
        · rw [parseStep_L_err env st t hL hE hC] at h
          simp only [bind, Except.bind] at h
          cases h
        · rw [parseStep_L_ok env st t c hL hE hC] at h
          simp only [bind, Except.bind] at h
          rcases List.mem_cons.mp hu with rfl | hu
          · rintro ⟨-, -, hb⟩
            rw [hC] at hb; cases hb
          · exact ih _ st' h u hu
    · rw [Bool.not_eq_true] at hL
      rw [parseStep_not_L env st t hL] at h
      simp only [bind, Except.bind] at h
      rcases List.mem_cons.mp hu with rfl | hu
      · rintro ⟨hb, -⟩
        rw [hL] at hb; cases hb
      · exact ih _ st' h u hu

/-! ### `LinkFlags::parse` seen through its fold -/

theorem parse_eq_error_iff (env : Env) (line : String) (e : Error) :
    LinkFlags.parse env line = Except.error e ↔
      (splitOnCharS ' ' line).foldlM (parseStep env) ([], []) = Except.error e := by
  unfold LinkFlags.parse
  rcases hf : (splitOnCharS ' ' line).foldlM (parseStep env) ([], []) with e' | st
  · simp
  · simp

theorem parse_ok_elim (env : Env) (line : String) (r : LinkFlags)
    (h : LinkFlags.parse env line = Except.ok r) :
    ∃ st' : List String × List String,
      (splitOnCharS ' ' line).foldlM (parseStep env) ([], []) = Except.ok st' ∧
      r.search_paths = as_sorted_vec st'.1 ∧ r.libs = as_sorted_vec st'.2 := by
  unfold LinkFlags.parse at h
  rcases hf : (splitOnCharS ' ' line).foldlM (parseStep env) ([], []) with e' | st
  · rw [hf] at h; cases h
  · rw [hf] at h
    injection h with h
    exact ⟨st, rfl, congrArg LinkFlags.search_paths h.symm,
      congrArg LinkFlags.libs h.symm⟩

/-- On success, membership in the returned `libs` is exactly `libMem` of the
token list, and membership in `search_paths` is exactly `spMem`. -/
theorem parse_ok_mem (env : Env) (line : String) (r : LinkFlags)
    (h : LinkFlags.parse env line = Except.ok r) :
    (∀ x, x ∈ r.search_paths ↔ spMem env (splitOnCharS ' ' line) x) ∧
    (∀ x, x ∈ r.libs ↔ libMem (splitOnCharS ' ' line) x) := by
  obtain ⟨st', hf, hsp, hlb⟩ := parse_ok_elim env line r h
  obtain ⟨h1, h2⟩ := foldlM_parseStep_ok env _ _ _ hf
  constructor
  · intro x
    rw [hsp, mem_as_sorted_vec, h1 x]
    simp
  · intro x
    rw [hlb, mem_as_sorted_vec, h2 x]
    simp

/-! ### Case analysis of the `MakeConf::new` loop body -/

theorem confStep_empty (env : Env) (c : MakeConf) (line : String)
    (h0 : line.length = 0) : confStep env c line = Except.ok c := by
  simp [confStep, h0]

theorem confStep_not_two (env : Env) (c : MakeConf) (line : String)
    (h0 : ¬ line.length = 0) (hs : (splitOnCharS '=' line).length ≠ 2) :
    confStep env c line = Except.ok c := by
  unfold confStep
  rw [if_neg h0]
  cases hsp : splitOnCharS '=' line with
  | nil => rfl
  | cons k rest =>
    cases rest with
    | nil => rfl
    | cons v rest2 =>
      cases rest2 with
      | nil => rw [hsp] at hs; simp at hs
      | cons w rest3 => rfl

theorem confStep_two (env : Env) (c : MakeConf) (line : String) (k v : String)
    (h0 : ¬ line.length = 0) (hs : splitOnCharS '=' line = [k, v]) :
    confStep env c line =
      (if k = "OSNAME" then Except.ok { c with os_name := v }
       else if k = "NOFORTRAN" then Except.ok { c with no_fortran := true }
       else if k = "CEXTRALIB" then
         (LinkFlags.parse env v).map fun f => { c with c_extra_libs := f }
       else if k = "FEXTRALIB" then
         (LinkFlags.parse env v).map fun f => { c with f_extra_libs := f }
       else Except.ok c) := by
  unfold confStep
  rw [if_neg h0, hs]

theorem empty_not_noFortranLine {line : String} (h0 : line.length = 0) :
    ¬ noFortranLine line := by
  rintro ⟨v, hv⟩
  have hd : line.data = [] := List.length_eq_zero.mp h0
  have : splitOnCharS '=' line = [String.mk []] := by
    unfold splitOnCharS
    rw [hd]
    rfl
  rw [this] at hv
  simp at hv

theorem not_two_not_noFortranLine {line : String}
    (hs : (splitOnCharS '=' line).length ≠ 2) : ¬ noFortranLine line := by
  rintro ⟨v, hv⟩
  rw [hv] at hs
  simp at hs

theorem two_noFortranLine_iff {line : String} {k v : String}
    (hs : splitOnCharS '=' line = [k, v]) :
    noFortranLine line ↔ k = "NOFORTRAN" := by
  constructor
  · rintro ⟨v', hv⟩
    rw [hs] at hv
    injection hv
  · rintro rfl
    exact ⟨v, hs⟩

theorem foldlM_confStep_no_fortran (env : Env) :
    ∀ (lines : List String) (c c' : MakeConf),
      lines.foldlM (confStep env) c = Except.ok c' →
      (c'.no_fortran = true ↔
        c.no_fortran = true ∨ ∃ l ∈ lines, noFortranLine l) := by
  intro lines
  induction lines with
  | nil =>
    intro c c' h
    have h' : (Except.ok c : Except Error MakeConf) = Except.ok c' := h
    injection h' with h'
    subst h'
    simp
  | cons l lines ih =>
    intro c c' h
    rw [List.foldlM_cons] at h
    have step :
        ∀ c₁ : MakeConf, confStep env c l = Except.ok c₁ →
          (c₁.no_fortran = true ↔ (c.no_fortran = true ∨ noFortranLine l)) →
          (c'.no_fortran = true ↔
            c.no_fortran = true ∨ ∃ l' ∈ l :: lines, noFortranLine l') := by
      intro c₁ hstep hiff
      rw [hstep] at h
      simp only [bind, Except.bind] at h
      rw [ih c₁ c' h, hiff]
      simp only [List.exists_mem_cons_iff]
      tauto
    by_cases h0 : l.length = 0
    · exact step c (confStep_empty env c l h0)
        (by simp [empty_not_noFortranLine h0])
    · cases hsp : splitOnCharS '=' l with
      | nil =>
        exact step c (confStep_not_two env c l h0 (by rw [hsp]; simp))
          (by simp [not_two_not_noFortranLine (by rw [hsp]; simp)])
      | cons k rest =>
        cases rest with
        | nil =>
          exact step c (confStep_not_two env c l h0 (by rw [hsp]; simp))
            (by simp [not_two_not_noFortranLine (by rw [hsp]; simp)])
        | cons v rest2 =>
          cases rest2 with
          | cons w rest3 =>
            exact step c (confStep_not_two env c l h0 (by rw [hsp]; simp))
              (by simp [not_two_not_noFortranLine (by rw [hsp]; simp)])
          | nil =>
            by_cases hk1 : k = "OSNAME"
            · refine step { c with os_name := v } ?_ ?_
              · rw [confStep_two env c l k v h0 hsp, if_pos hk1]
              · have hnf : ¬ noFortranLine l := by
                  rw [two_noFortranLine_iff hsp, hk1]; decide
                simp [hnf]
            · by_cases hk2 : k = "NOFORTRAN"
              · refine step { c with no_fortran := true } ?_ ?_
                · rw [confStep_two env c l k v h0 hsp, if_neg hk1, if_pos hk2]
                · have hnf : noFortranLine l := (two_noFortranLine_iff hsp).mpr hk2
                  simp [hnf]
              · have hnf : ¬ noFortranLine l := by
                  rw [two_noFortranLine_iff hsp]; exact hk2
                by_cases hk3 : k = "CEXTRALIB"
                · rcases hp : LinkFlags.parse env v with e | f
                  · rw [confStep_two env c l k v h0 hsp, if_neg hk1, if_neg hk2,
                      if_pos hk3, hp] at h
                    simp only [Except.map, bind, Except.bind] at h
                    cases h
                  · refine step { c with c_extra_libs := f } ?_ ?_
                    · rw [confStep_two env c l k v h0 hsp, if_neg hk1, if_neg hk2,
                        if_pos hk3, hp]
                      rfl
                    · simp [hnf]
                · by_cases hk4 : k = "FEXTRALIB"
                  · rcases hp : LinkFlags.parse env v with e | f
                    · rw [confStep_two env c l k v h0 hsp, if_neg hk1, if_neg hk2,
                        if_neg hk3, if_pos hk4, hp] at h
                      simp only [Except.map, bind, Except.bind] at h
                      cases h
                    · refine step { c with f_extra_libs := f } ?_ ?_
                      · rw [confStep_two env c l k v h0 hsp, if_neg hk1, if_neg hk2,
                          if_neg hk3, if_pos hk4, hp]
                        rfl
                      · simp [hnf]
                  · refine step c ?_ ?_
                    · rw [confStep_two env c l k v h0 hsp, if_neg hk1, if_neg hk2,
                        if_neg hk3, if_neg hk4]
                    · simp [hnf]

/-! ### `LibInspect::new` on a successful run -/

theorem libInspect_new_ok (env : Env) (path : String) (r : LibInspect)
    (nl ol : List String) (hn : env.nm_g path = some nl)
    (ho : env.objdump_p path = some ol)
    (h : LibInspect.new env path = Except.ok r) :
    r = ⟨path,
      List.insertionSort (fun a b => strLe a b = true) (ol.filterMap objdumpParseLine),
      List.insertionSort (fun a b => strLe a b = true) (nl.filterMap nmParseLine)⟩ := by
  unfold LibInspect.new at h
  rcases hpe : env.pathExists path with _ | _
  · rw [hpe] at h
    simp at h
  · rw [hpe, hn, ho] at h
    simp at h
    exact h.symm

/-! ### Removing a `-L` token whose path does not exist -/

theorem foldlM_skip_nonexistent (env : Env) (pre post : List String)
    (t : String) (hL : startsWithS "-L" t = true)
    (hE : env.pathExists (trimStartMatchesS "-L" t) = false) :
    ∀ st : List String × List String,
      (pre ++ t :: post).foldlM (parseStep env) st =
        (pre ++ post).foldlM (parseStep env) st := by
  induction pre with
  | nil =>
    intro st
    rw [List.nil_append, List.nil_append, List.foldlM_cons,
      parseStep_L_skip env st t hL hE]
    rfl
  | cons p pre ih =>
    intro st
    rw [List.cons_append, List.cons_append, List.foldlM_cons, List.foldlM_cons]
    rcases hp : parseStep env st p with e | st1
    · rfl
    · simp only [bind, Except.bind]
      exact ih st1

/-! ### Two sorted duplicate-free lists with the same members are equal -/

theorem sorted_nodup_ext {l₁ l₂ : List String} (s₁ : List.Sorted (· ≤ ·) l₁)
    (s₂ : List.Sorted (· ≤ ·) l₂) (d₁ : l₁.Nodup) (d₂ : l₂.Nodup)
    (h : ∀ x, x ∈ l₁ ↔ x ∈ l₂) : l₁ = l₂ :=
  List.eq_of_perm_of_sorted ((List.perm_ext_iff_of_nodup d₁ d₂).mpr h) s₁ s₂

/-! ## The claims -/

/-- C1: for every input flag string, the `libs` sequence returned by
`LinkFlags::parse` is sorted ascending and contains no duplicates, and
parsing two flag strings whose token sets coincide (same tokens up to order
and repetition, against the same filesystem) returns identical `LinkFlags`
values. -/
theorem c1_parse_libs_sorted_nodup_and_token_set_determines (env : Env)
    (line₁ line₂ : String) (r₁ r₂ : LinkFlags)
    (h₁ : LinkFlags.parse env line₁ = Except.ok r₁)
    (h₂ : LinkFlags.parse env line₂ = Except.ok r₂) :
    (List.Sorted (· ≤ ·) r₁.libs ∧ r₁.libs.Nodup) ∧
    ((splitOnCharS ' ' line₁).toFinset = (splitOnCharS ' ' line₂).toFinset →
      r₁ = r₂) := by
  obtain ⟨st₁, hf₁, hsp₁, hlb₁⟩ := parse_ok_elim env line₁ r₁ h₁
  constructor
  · rw [hlb₁]
    exact ⟨sorted_as_sorted_vec _, nodup_as_sorted_vec _⟩
  · intro hset
    obtain ⟨st₂, hf₂, hsp₂, hlb₂⟩ := parse_ok_elim env line₂ r₂ h₂
    obtain ⟨m1sp, m1lb⟩ := parse_ok_mem env line₁ r₁ h₁
    obtain ⟨m2sp, m2lb⟩ := parse_ok_mem env line₂ r₂ h₂
    have htok : ∀ t, t ∈ splitOnCharS ' ' line₁ ↔ t ∈ splitOnCharS ' ' line₂ := by
      intro t
      rw [← List.mem_toFinset, hset, List.mem_toFinset]
    have hspm : ∀ x, spMem env (splitOnCharS ' ' line₁) x ↔
        spMem env (splitOnCharS ' ' line₂) x := by
      intro x
      constructor
      · rintro ⟨t, ht, hp⟩
        exact ⟨t, (htok t).mp ht, hp⟩
      · rintro ⟨t, ht, hp⟩
        exact ⟨t, (htok t).mpr ht, hp⟩
    have hlbm : ∀ x, libMem (splitOnCharS ' ' line₁) x ↔
        libMem (splitOnCharS ' ' line₂) x := by
      intro x
      constructor
      · rintro ⟨t, ht, hp⟩
        exact ⟨t, (htok t).mp ht, hp⟩
      · rintro ⟨t, ht, hp⟩
        exact ⟨t, (htok t).mpr ht, hp⟩
    have e₁ : r₁.search_paths = r₂.search_paths := by
      refine sorted_nodup_ext ?_ ?_ ?_ ?_ ?_
      · rw [hsp₁]; exact sorted_as_sorted_vec _
      · rw [hsp₂]; exact sorted_as_sorted_vec _
      · rw [hsp₁]; exact nodup_as_sorted_vec _
      · rw [hsp₂]; exact nodup_as_sorted_vec _
      · intro x
        rw [m1sp x, m2sp x]
        exact hspm x
    have e₂ : r₁.libs = r₂.libs := by
      refine sorted_nodup_ext ?_ ?_ ?_ ?_ ?_
      · rw [hlb₁]; exact sorted_as_sorted_vec _
      · rw [hlb₂]; exact sorted_as_sorted_vec _
      · rw [hlb₁]; exact nodup_as_sorted_vec _
      · rw [hlb₂]; exact nodup_as_sorted_vec _
      · intro x
        rw [m1lb x, m2lb x]
        exact hlbm x
    obtain ⟨sp₁, lb₁⟩ := r₁
    obtain ⟨sp₂, lb₂⟩ := r₂
    simp only at e₁ e₂
    rw [e₁, e₂]

/-- Witness for C1 at a concrete filesystem and two concrete flag strings
that differ in token order and repetition. -/
theorem c1_witness :
    (List.Sorted (· ≤ ·) ((⟨[], ["a", "c"]⟩ : LinkFlags).libs) ∧
      (⟨[], ["a", "c"]⟩ : LinkFlags).libs.Nodup) ∧
    (⟨[], ["a", "c"]⟩ : LinkFlags) = ⟨[], ["a", "c"]⟩ :=
  have h := c1_parse_libs_sorted_nodup_and_token_set_determines envEmpty
    "-lc -la" "-la -lc -lc" ⟨[], ["a", "c"]⟩ ⟨[], ["a", "c"]⟩ (by rfl) (by rfl)
  ⟨h.1, h.2 (by decide)⟩

/-- C3 counterexample: the claim says token `"-l-lfoo"` contributes the
library name `"-lfoo"`; in fact `trim_start_matches` strips the `-l` prefix
repeatedly, so the parse of `"-l-lfoo"` yields `libs == ["foo"]`, which does
not contain `"-lfoo"`. -/
theorem c3_counterexample :
    LinkFlags.parse envEmpty "-l-lfoo" = Except.ok ⟨[], ["foo"]⟩ ∧
    "-lfoo" ∉ (["foo"] : List String) :=
  ⟨by rfl, by decide⟩

/-- C3 amended: for every token starting with `-l`, `LinkFlags::parse` adds
exactly the remainder of the token after stripping all leading repetitions
of `-l` (Rust `trim_start_matches`), verbatim and with no existence check,
to the libs set; conversely every entry of `libs` arises this way. -/
theorem c3_amended_lib_token_contributes_trimmed_remainder (env : Env)
    (line : String) (r : LinkFlags)
    (h : LinkFlags.parse env line = Except.ok r) :
    (∀ t ∈ splitOnCharS ' ' line, startsWithS "-l" t = true →
      trimStartMatchesS "-l" t ∈ r.libs) ∧
    (∀ x ∈ r.libs, ∃ t ∈ splitOnCharS ' ' line,
      startsWithS "-l" t = true ∧ trimStartMatchesS "-l" t = x) := by
  obtain ⟨-, mlb⟩ := parse_ok_mem env line r h
  constructor
  · intro t ht hl
    exact (mlb _).mpr ⟨t, ht, hl, rfl⟩
  · intro x hx
    exact (mlb x).mp hx

/-- Witness for the amended C3: parsing `"-l-lfoo"` puts the fully stripped
remainder of that token into `libs`. -/
theorem c3_amended_witness :
    trimStartMatchesS "-l" "-l-lfoo" ∈ (⟨[], ["foo"]⟩ : LinkFlags).libs :=
  (c3_amended_lib_token_contributes_trimmed_remainder envEmpty "-l-lfoo"
    ⟨[], ["foo"]⟩ (by rfl)).1 "-l-lfoo" (by decide) (by rfl)

/-- C4: a `-L` token naming a nonexistent path is silently discarded —
removing it from the token list does not change the result of the parsing
fold, for any surrounding tokens and any accumulated state — and in
particular parsing `"-L/definitely/nonexistent/path -lc"` (when that path
does not exist) succeeds with empty `search_paths` and `libs == ["c"]`. -/
theorem c4_nonexistent_L_token_discarded (env : Env) :
    (∀ (pre post : List String) (t : String)
      (st : List String × List String),
      startsWithS "-L" t = true →
      env.pathExists (trimStartMatchesS "-L" t) = false →
      (pre ++ t :: post).foldlM (parseStep env) st =
        (pre ++ post).foldlM (parseStep env) st) ∧
    (env.pathExists "/definitely/nonexistent/path" = false →
      LinkFlags.parse env "-L/definitely/nonexistent/path -lc" =
        Except.ok ⟨[], ["c"]⟩) := by
  constructor
  · intro pre post t st hL hE
    exact foldlM_skip_nonexistent env pre post t hL hE st
  · intro h
    have h1 := foldlM_skip_nonexistent env [] ["-lc"]
      "-L/definitely/nonexistent/path" (by rfl) h ([], [])
    have h1' : (["-L/definitely/nonexistent/path", "-lc"] : List String).foldlM
        (parseStep env) ([], []) =
        (["-lc"] : List String).foldlM (parseStep env) ([], []) := h1
    have h0 : LinkFlags.parse env "-L/definitely/nonexistent/path -lc" =
        match (["-L/definitely/nonexistent/path", "-lc"] : List String).foldlM
          (parseStep env) ([], []) with
        | Except.error e => Except.error e
        | Except.ok st => Except.ok ⟨as_sorted_vec st.1, as_sorted_vec st.2⟩ := rfl
    rw [h0, h1']
    rfl

/-- Witness for C4 in the concrete empty filesystem. -/
theorem c4_witness :
    LinkFlags.parse envEmpty "-L/definitely/nonexistent/path -lc" =
      Except.ok ⟨[], ["c"]⟩ :=
  (c4_nonexistent_L_token_discarded envEmpty).2 rfl

/-- C9: `LinkFlags::parse` fails exactly when some `-L` token names a path
that exists but whose canonicalization fails (`badTok`); a missing path
never produces this error, and the error is `CannotCanonicalizePath`
carrying the offending (prefix-stripped) path. -/
theorem c9_parse_error_iff_bad_token (env : Env) (line : String) :
    ((∃ e, LinkFlags.parse env line = Except.error e) ↔
      ∃ t ∈ splitOnCharS ' ' line, badTok env t) ∧
    (∀ e, LinkFlags.parse env line = Except.error e →
      ∃ t ∈ splitOnCharS ' ' line, badTok env t ∧
        e = Error.CannotCanonicalizePath (trimStartMatchesS "-L" t)) := by
  have herr : ∀ e, LinkFlags.parse env line = Except.error e →
      ∃ t ∈ splitOnCharS ' ' line, badTok env t ∧
        e = Error.CannotCanonicalizePath (trimStartMatchesS "-L" t) := by
    intro e he
    rw [parse_eq_error_iff] at he
    exact foldlM_parseStep_error env _ _ e he
  refine ⟨⟨?_, ?_⟩, herr⟩
  · rintro ⟨e, he⟩
    obtain ⟨t, ht, hb, -⟩ := herr e he
    exact ⟨t, ht, hb⟩
  · rintro ⟨t, ht, hb⟩
    rcases hp : LinkFlags.parse env line with e | r
    · exact ⟨e, rfl⟩
    · obtain ⟨st', hf, -, -⟩ := parse_ok_elim env line r hp
      exact absurd hb (foldlM_parseStep_ok_no_bad env _ _ _ hf t ht)

/-- Witness for C9: in a filesystem where every path exists but nothing
canonicalizes, `"-La"` makes the parse fail with the offending path. -/
theorem c9_witness :
    ∃ t ∈ splitOnCharS ' ' "-La", badTok envCanonFail t ∧
      Error.CannotCanonicalizePath "a" =
        Error.CannotCanonicalizePath (trimStartMatchesS "-L" t) :=
  (c9_parse_error_iff_bad_token envCanonFail "-La").2
    (Error.CannotCanonicalizePath "a") (by rfl)

/-- C10: a bare `-l` token contributes the empty string to `libs`: whenever
`"-l"` occurs among the tokens of a successful parse, `"" ∈ libs`; and
parsing the flag string `"-l"` itself succeeds, for any filesystem, with
`libs == [""]`. -/
theorem c10_bare_lib_token_adds_empty_string (env : Env) (line : String)
    (r : LinkFlags) (h : LinkFlags.parse env line = Except.ok r)
    (hmem : "-l" ∈ splitOnCharS ' ' line) :
    "" ∈ r.libs ∧ LinkFlags.parse env "-l" = Except.ok ⟨[], [""]⟩ := by
  constructor
  · exact ((parse_ok_mem env line r h).2 "").mpr ⟨"-l", hmem, rfl, rfl⟩
  · rfl

/-- Witness for C10 at the concrete input `"-l"`. -/
theorem c10_witness :
    "" ∈ (⟨[], [""]⟩ : LinkFlags).libs ∧
    LinkFlags.parse envEmpty "-l" = Except.ok ⟨[], [""]⟩ :=
  c10_bare_lib_token_adds_empty_string envEmpty "-l" ⟨[], [""]⟩ (by rfl)
    (by decide)

/-- C5: `MakeConf::new` sets `no_fortran` to true exactly when some line of
the file has key `NOFORTRAN` and splits on `=` into exactly two parts
(regardless of the value); with no such line it stays false. -/
theorem c5_nofortran_key_presence_sets_flag (env : Env) (path : String)
    (lines : List String) (conf : MakeConf)
    (hr : env.readLines path = some lines)
    (h : MakeConf.new env path = Except.ok conf) :
    conf.no_fortran = true ↔ ∃ l ∈ lines, noFortranLine l := by
  unfold MakeConf.new at h
  rw [hr] at h
  rw [foldlM_confStep_no_fortran env lines MakeConf.init conf h]
  simp [MakeConf.init]

/-- Witness for C5 at the concrete configuration file `NOFORTRAN=1`. -/
theorem c5_witness :
    (⟨"", true, ⟨[], []⟩, ⟨[], []⟩⟩ : MakeConf).no_fortran = true :=
  (c5_nofortran_key_presence_sets_flag envConf5 "Makefile.conf"
    ["NOFORTRAN=1"] ⟨"", true, ⟨[], []⟩, ⟨[], []⟩⟩ rfl (by rfl)).mpr
    ⟨"NOFORTRAN=1", by decide, "1", by rfl⟩

/-- C8: `MakeConf::new` is lenient — an empty line, a line not splitting on
`=` into exactly two parts, or a line with an unrecognized key leaves the
configuration unchanged and raises no error, and a file mixing unrecognized
keys, a malformed line and an empty line with recognized keys parses
successfully with the recognized fields populated. -/
theorem c8_lenient_config_parsing (env : Env) (c : MakeConf) (line : String) :
    (line.length = 0 → confStep env c line = Except.ok c) ∧
    ((splitOnCharS '=' line).length ≠ 2 → confStep env c line = Except.ok c) ∧
    (∀ k v, splitOnCharS '=' line = [k, v] → k ≠ "OSNAME" → k ≠ "NOFORTRAN" →
      k ≠ "CEXTRALIB" → k ≠ "FEXTRALIB" → confStep env c line = Except.ok c) ∧
    (env.readLines "Makefile.conf" =
        some ["FOO=bar", "FOO=bar=baz", "", "OSNAME=Linux", "NOFORTRAN=1"] →
      MakeConf.new env "Makefile.conf" =
        Except.ok ⟨"Linux", true, ⟨[], []⟩, ⟨[], []⟩⟩) := by
  refine ⟨confStep_empty env c line, ?_, ?_, ?_⟩
  · intro hs
    by_cases h0 : line.length = 0
    · exact confStep_empty env c line h0
    · exact confStep_not_two env c line h0 hs
  · intro k v hs hk1 hk2 hk3 hk4
    by_cases h0 : line.length = 0
    · exact confStep_empty env c line h0
    · rw [confStep_two env c line k v h0 hs, if_neg hk1, if_neg hk2,
        if_neg hk3, if_neg hk4]
  · intro hr
    unfold MakeConf.new
    rw [hr]
    rfl

/-- Witness for C8: the unrecognized-key line is skipped, and the concrete
mixed file parses to the expected configuration. -/
theorem c8_witness :
    confStep envEmpty MakeConf.init "FOO=bar" = Except.ok MakeConf.init ∧
    MakeConf.new envConf8 "Makefile.conf" =
      Except.ok ⟨"Linux", true, ⟨[], []⟩, ⟨[], []⟩⟩ :=
  ⟨(c8_lenient_config_parsing envEmpty MakeConf.init "FOO=bar").2.2.1
      "FOO" "bar" rfl (by decide) (by decide) (by decide) (by decide),
   (c8_lenient_config_parsing envConf8 MakeConf.init "Makefile.conf").2.2.2 rfl⟩

/-- C7: inspecting a nonexistent path fails with `LibraryNotExist` whatever
the external tools would return — the result is the same for every possible
`nm`/`objdump` behavior, so neither command is consulted. -/
theorem c7_inspect_nonexistent_fails_before_tools (pe : String → Bool)
    (cz : String → Option String) (rl nm od : String → Option (List String))
    (path : String) (h : pe path = false) :
    LibInspect.new ⟨pe, cz, rl, nm, od⟩ path =
      Except.error (Error.LibraryNotExist path) := by
  unfold LibInspect.new
  simp [h]

/-- Witness for C7 at a concrete environment and path. -/
theorem c7_witness :
    LibInspect.new envEmpty "p" = Except.error (Error.LibraryNotExist "p") :=
  c7_inspect_nonexistent_fails_before_tools (fun _ => false) (fun _ => none)
    (fun _ => none) (fun _ => none) (fun _ => none) "p" rfl

/-- C2 counterexample: the claim says `symbols` contains no duplicates; but
`LibInspect::new` sorts without deduplicating, so an `nm` output repeating
the symbol `a` on two `T` lines yields `symbols == ["a", "a"]`, which has a
duplicate. -/
theorem c2_counterexample :
    LibInspect.new envDupNm "p" = Except.ok ⟨"p", [], ["a", "a"]⟩ ∧
    ¬ (["a", "a"] : List String).Nodup :=
  ⟨by rfl, by decide⟩

/-- C2 amended: for every successfully inspected binary, `symbols` is sorted
and is a permutation of (hence contains exactly, with multiplicity) the
names of the `nm` output lines that split into exactly three fields with
type field `"T"`; likewise `libs` is sorted and is a permutation of the
parsed `NEEDED` entries. Neither list is deduplicated. -/
theorem c2_amended_sorted_from_tool_lines (env : Env) (path : String)
    (r : LibInspect) (nl ol : List String)
    (hn : env.nm_g path = some nl) (ho : env.objdump_p path = some ol)
    (h : LibInspect.new env path = Except.ok r) :
    List.Sorted (· ≤ ·) r.symbols ∧
    r.symbols.Perm (nl.filterMap nmParseLine) ∧
    List.Sorted (· ≤ ·) r.libs ∧
    r.libs.Perm (ol.filterMap objdumpParseLine) := by
  obtain rfl := libInspect_new_ok env path r nl ol hn ho h
  exact ⟨(List.sorted_insertionSort _ _).imp fun hh => (strLe_iff _ _).mp hh,
    List.perm_insertionSort _ _,
    (List.sorted_insertionSort _ _).imp fun hh => (strLe_iff _ _).mp hh,
    List.perm_insertionSort _ _⟩

/-- Witness for the amended C2 at the duplicate-symbol environment. -/
theorem c2_amended_witness :
    List.Sorted (· ≤ ·) ((⟨"p", [], ["a", "a"]⟩ : LibInspect).symbols) ∧
    (⟨"p", [], ["a", "a"]⟩ : LibInspect).symbols.Perm
      ((["0 T a", "1 T a"] : List String).filterMap nmParseLine) ∧
    List.Sorted (· ≤ ·) ((⟨"p", [], ["a", "a"]⟩ : LibInspect).libs) ∧
    (⟨"p", [], ["a", "a"]⟩ : LibInspect).libs.Perm
      (([] : List String).filterMap objdumpParseLine) :=
  c2_amended_sorted_from_tool_lines envDupNm "p" ⟨"p", [], ["a", "a"]⟩
    ["0 T a", "1 T a"] [] rfl rfl (by rfl)

/-- C6: `has_lib name` is true iff some dependency entry's stem — the
portion before its first `.` — equals `"lib" ++ name`; in particular
`libm.so.6` makes `has_lib "m"` true while `libmfoo.so` does not. -/
theorem c6_has_lib_iff_stem_matches (insp : LibInspect) (name : String) :
    (insp.has_lib name = true ↔
      ∃ lib ∈ insp.libs,
        (splitOnCharS '.' lib).head? = some ("lib" ++ name)) ∧
    (LibInspect.mk "p" ["libm.so.6"] []).has_lib "m" = true ∧
    (LibInspect.mk "p" ["libmfoo.so"] []).has_lib "m" = false := by
  refine ⟨?_, by decide, by decide⟩
  unfold LibInspect.has_lib
  rw [List.any_eq_true]
  refine exists_congr fun lib => and_congr_right fun _ => ?_
  cases hh : (splitOnCharS '.' lib).head? with
  | none => simp
  | some stem => simp

end OpenblasBuild
